import Mathlib

/-!
Verification of the NNTP transform proxy (main.ts).

Shallow embedding conventions:
- a raw byte stream chunk or line is a `List Nat` of byte values;
- a JavaScript string is a `List Nat` of Unicode code points
  (`str` converts a Lean string literal to this form);
- `TextEncoder.encode` / `TextDecoder.decode` are `encodeUtf8` / `decodeUtf8`;
- JS `undefined` for optional strings is `Option.none`;
- the external htpasswd credential store (`validate(htpasswd, user, pass)`)
  is an abstract boolean function `valid`, already applied to the
  configured htpasswd path, taking the possibly-undefined user and pass.
-/

namespace NNTP

/-- Code points of a Lean string literal, the model of a JS string constant. -/
def str (s : String) : List Nat := s.data.map Char.toNat

/-- JS whitespace set (WhiteSpace and LineTerminator code points), as used by
`String.prototype.trim` and by `Number()` input stripping. -/
def jsWhiteN (n : Nat) : Bool :=
  [9, 10, 11, 12, 13, 32, 160, 5760, 8192, 8193, 8194, 8195, 8196, 8197,
   8198, 8199, 8200, 8201, 8202, 8232, 8233, 8239, 8287, 12288, 65279].contains n

/-- Model of `String.prototype.trim`: strip JS whitespace from both ends. -/
def jsTrim (s : List Nat) : List Nat :=
  ((s.dropWhile jsWhiteN).reverse.dropWhile jsWhiteN).reverse

/-- Model of `String.prototype.split(" ")`: split at every single space,
keeping empty fragments; the empty string yields one empty fragment. -/
def jsSplitSpace : List Nat → List (List Nat)
  | [] => [[]]
  | c :: t =>
    if c = 32 then [] :: jsSplitSpace t
    else
      match jsSplitSpace t with
      | h :: t' => (c :: h) :: t'
      | [] => [[c]]

/-- Model of `String.prototype.includes`: substring containment. -/
def includesSub : List Nat → List Nat → Bool
  | [], pat => pat.isEmpty
  | hay@(_ :: t), pat => pat.isPrefixOf hay || includesSub t pat

/-- ASCII branch of `String.prototype.toUpperCase` (the source only applies it
to the ASCII command vocabulary). -/
def jsUpperN (n : Nat) : Nat := if 97 ≤ n ∧ n ≤ 122 then n - 32 else n

/-- ASCII branch of `String.prototype.toLowerCase` (applied only to the ASCII
command vocabulary). -/
def jsLowerN (n : Nat) : Nat := if 65 ≤ n ∧ n ≤ 90 then n + 32 else n

/-- Lexicographic code-unit order on JS strings, the default comparison of
`Array.prototype.sort`. -/
def lexLtN : List Nat → List Nat → Bool
  | [], [] => false
  | [], _ :: _ => true
  | _ :: _, [] => false
  | a :: as, b :: bs => if a < b then true else if b < a then false else lexLtN as bs

/-- Insertion into a sorted list, for the model of `Array.prototype.sort`. -/
def insertSorted (x : List Nat) : List (List Nat) → List (List Nat)
  | [] => [x]
  | y :: ys => if lexLtN x y then x :: y :: ys else y :: insertSorted x ys

/-- Model of `Array.prototype.sort()` on distinct strings: ascending
code-unit lexicographic order. -/
def jsSort (l : List (List Nat)) : List (List Nat) := l.foldr insertSorted []

/-- UTF-8 bytes of one code point (`TextEncoder` per-character encoding). -/
def utf8Bytes (n : Nat) : List Nat :=
  if n ≤ 127 then [n]
  else if n ≤ 2047 then [192 + n / 64, 128 + n % 64]
  else if n ≤ 65535 then [224 + n / 4096, 128 + (n / 64) % 64, 128 + n % 64]
  else [240 + n / 262144, 128 + (n / 4096) % 64, 128 + (n / 64) % 64, 128 + n % 64]

/-- Model of `TextEncoder.encode`: code points to UTF-8 bytes. -/
def encodeUtf8 (s : List Nat) : List Nat := (s.map utf8Bytes).flatten

/-- Is a byte a UTF-8 continuation byte. -/
def contOk (b : Nat) : Bool := 128 ≤ b && b ≤ 191

/-- Fuel-indexed worker for `decodeUtf8`; one unit of fuel is spent per
consumed leading byte, so fuel equal to the input length always suffices.
Structural recursion on the fuel keeps the definition kernel-reducible. -/
def decodeGo : Nat → List Nat → List Nat
  | _, [] => []
  | 0, _ :: _ => []
  | fuel + 1, b :: t =>
    if b ≤ 127 then b :: decodeGo fuel t
    else if 194 ≤ b && b ≤ 223 then
      match t with
      | [] => [65533]
      | b2 :: t2 =>
        if contOk b2 then ((b - 192) * 64 + (b2 - 128)) :: decodeGo fuel t2
        else 65533 :: decodeGo fuel (b2 :: t2)
    else if 224 ≤ b && b ≤ 239 then
      match t with
      | [] => [65533]
      | b2 :: t2 =>
        if (if b = 224 then 160 ≤ b2 && b2 ≤ 191
            else if b = 237 then 128 ≤ b2 && b2 ≤ 159
            else contOk b2) then
          match t2 with
          | [] => [65533]
          | b3 :: t3 =>
            if contOk b3 then ((b - 224) * 4096 + (b2 - 128) * 64 + (b3 - 128)) :: decodeGo fuel t3
            else 65533 :: decodeGo fuel (b3 :: t3)
        else 65533 :: decodeGo fuel (b2 :: t2)
    else if 240 ≤ b && b ≤ 244 then
      match t with
      | [] => [65533]
      | b2 :: t2 =>
        if (if b = 240 then 144 ≤ b2 && b2 ≤ 191
            else if b = 244 then 128 ≤ b2 && b2 ≤ 143
            else contOk b2) then
          match t2 with
          | [] => [65533]
          | b3 :: t3 =>
            if contOk b3 then
              match t3 with
              | [] => [65533]
              | b4 :: t4 =>
                if contOk b4 then
                  ((b - 240) * 262144 + (b2 - 128) * 4096 + (b3 - 128) * 64 + (b4 - 128))
                    :: decodeGo fuel t4
                else 65533 :: decodeGo fuel (b4 :: t4)
            else 65533 :: decodeGo fuel (b3 :: t3)
        else 65533 :: decodeGo fuel (b2 :: t2)
    else 65533 :: decodeGo fuel t

/-- Model of `TextDecoder.decode` (utf-8, non-fatal): bytes to code points,
emitting U+FFFD (65533) for invalid sequences and resuming at the
offending byte. -/
def decodeUtf8 (l : List Nat) : List Nat := decodeGo l.length l

/-- The command vocabulary literal of main.ts, in source order. -/
def BASE : List (List Nat) :=
  [str "ARTICLE", str "AUTHINFO USER", str "AUTHINFO PASS", str "BODY",
   str "CAPABILITIES", str "DATE", str "GROUP", str "HDR", str "HEAD",
   str "HELP", str "IHAVE", str "LAST", str "LIST", str "LIST ACTIVE.TIMES",
   str "LIST ACTIVE", str "LIST DISTRIB.PATS", str "LIST HEADERS",
   str "LIST NEWSGROUPS", str "LIST OVERVIEW.FMT", str "LISTGROUP",
   str "MODE READER", str "NEWGROUPS", str "NEWNEWS", str "NEXT", str "OVER",
   str "POST", str "QUIT", str "STAT", str "SLAVE"]

/-- The COMMANDS table of main.ts: the vocabulary is sorted, then for each
entry the encoded uppercase and lowercase forms are pushed in turn. -/
def COMMANDS : List (List Nat) :=
  (jsSort BASE).foldl
    (fun commands command =>
      commands ++ [encodeUtf8 (command.map jsUpperN), encodeUtf8 (command.map jsLowerN)])
    []

/-- The value stored by parseCommand for a matching entry:
`decoder.decode(command).trim().toUpperCase()`. -/
def canon (command : List Nat) : List Nat := (jsTrim (decodeUtf8 command)).map jsUpperN

/-- parseCommand of main.ts: scan all registered commands, keeping the last
one whose bytes are a prefix of the line. -/
def parseCommand (line : List Nat) : Option (List Nat) :=
  COMMANDS.foldl
    (fun result command =>
      if command.isPrefixOf line then some (canon command) else result)
    none

/-- Specification device for reasoning about parseCommand: the last entry of
a command list whose bytes are a prefix of the line (the foldl of
parseCommand keeps the last match). -/
def lastMatch (line : List Nat) : List (List Nat) → Option (List Nat)
  | [] => none
  | c :: cs =>
    match lastMatch line cs with
    | some e => some e
    | none => if c.isPrefixOf line then some c else none

/-- The ConnectOptions fields used by RequestStream: the operator-configured
upstream user and pass, and the optional htpasswd path. -/
structure ConnectOptions where
  user : Option (List Nat)
  pass : Option (List Nat)
  htpasswd : Option (List Nat)

/-- JS template interpolation of a possibly-undefined string. -/
def tmpl : Option (List Nat) → List Nat
  | some s => s
  | none => str "undefined"

/-- The per-session authinfo state of RequestStream: the claimed user
(a JS string or undefined) and the authenticated flag. -/
structure AuthInfo where
  user : Option (List Nat)
  authenticated : Bool
deriving DecidableEq

/-- The initial authinfo value of RequestStream: user is the empty string and
`authenticated: !htpasswd` (authentication is disabled when no htpasswd path
is configured; JS truthiness makes an empty path string count as absent). -/
def initAuth (o : ConnectOptions) : AuthInfo :=
  { user := some []
    authenticated := match o.htpasswd with | none => true | some p => p.isEmpty }

/-- Model of `command?.includes("AUTHINFO ")` with optional chaining. -/
def isAuthinfoCmd (command : Option (List Nat)) : Bool :=
  match command with
  | some c => includesSub c (str "AUTHINFO ")
  | none => false

/-- The transform of RequestStream (main.ts): one outbound chunk in, the new
authinfo state and the single enqueued chunk out. `valid` stands for the
external `validate(htpasswd, user, arg)` credential-store call. -/
def requestTransform (o : ConnectOptions)
    (valid : Option (List Nat) → Option (List Nat) → Bool)
    (st : AuthInfo) (line : List Nat) : AuthInfo × List Nat :=
  let command := parseCommand line
  if isAuthinfoCmd command then
    if st.authenticated then (st, line)
    else
      let arg := (jsSplitSpace (jsTrim (decodeUtf8 line))).get? 2
      if command = some (str "AUTHINFO USER") then
        ({ st with user := arg },
         encodeUtf8 (str "AUTHINFO USER " ++ tmpl o.user ++ str "\r\n"))
      else if command = some (str "AUTHINFO PASS") then
        if valid st.user arg then
          ({ st with authenticated := true },
           encodeUtf8 (str "AUTHINFO PASS " ++ tmpl o.pass ++ str "\r\n"))
        else (st, line)
      else (st, line)
  else (st, line)

/-- Sequential processing of the outbound chunks of one session through
RequestStream, threading the authinfo state. -/
def processLines (o : ConnectOptions)
    (valid : Option (List Nat) → Option (List Nat) → Bool) :
    AuthInfo → List (List Nat) → AuthInfo × List (List Nat)
  | st, [] => (st, [])
  | st, l :: ls =>
    let s1 := requestTransform o valid st l
    let s2 := processLines o valid s1.1 ls
    (s2.1, s1.2 :: s2.2)

/-- A JS number as produced by `Number(string)`: NaN, an infinity, or an
exact value represented as `num / den` with `den` a positive power of ten
(exact rational semantics; every numeric string value is of this form). -/
inductive JSNum where
  | nan
  | posInf
  | negInf
  | fin (num : Int) (den : Nat)
deriving DecidableEq

/-- Is a code point an ASCII decimal digit. -/
def isDigitN (n : Nat) : Bool := 48 ≤ n && n ≤ 57

/-- Numeric value of a list of ASCII decimal digits. -/
def digitsToNat (ds : List Nat) : Nat := ds.foldl (fun a d => 10 * a + (d - 48)) 0

/-- Digit value of a code point in a given radix, if valid. -/
def radixDigit (radix : Nat) (n : Nat) : Option Nat :=
  if 48 ≤ n && n ≤ 57 && n - 48 < radix then some (n - 48)
  else if 97 ≤ n && n ≤ 102 && n - 87 < radix then some (n - 87)
  else if 65 ≤ n && n ≤ 70 && n - 55 < radix then some (n - 55)
  else none

/-- Numeric value of a digit string in a given radix, if all digits valid. -/
def radixVal (radix : Nat) (ds : List Nat) : Option Nat :=
  ds.foldl (fun a d => match a, radixDigit radix d with
    | some a, some d => some (radix * a + d)
    | _, _ => none) (some 0)

/-- Parse the ExponentPart of a decimal literal, which must extend to the end
of the string: (e|E) with optional sign and then one or more digits.
The empty remainder means no exponent (value 0). -/
def parseExpPart : List Nat → Option Int
  | [] => some 0
  | e :: r =>
    if e = 101 ∨ e = 69 then
      match r with
      | 43 :: rr => if rr ≠ [] ∧ rr.all isDigitN then some (digitsToNat rr) else none
      | 45 :: rr => if rr ≠ [] ∧ rr.all isDigitN then some (-(digitsToNat rr : Int)) else none
      | rr => if rr ≠ [] ∧ rr.all isDigitN then some (digitsToNat rr) else none
    else none

/-- Parse an unsigned StrUnsignedDecimalLiteral (digits, optional dot and
fraction digits, optional exponent), returning the exact value as
numerator and power-of-ten denominator. -/
def parseDec (u : List Nat) : Option (Int × Nat) :=
  let p1 := u.span isDigitN
  let intD := p1.1
  let p2 := match p1.2 with
    | 46 :: rr => (true, rr)
    | r1 => (false, r1)
  let p3 := if p2.1 then p2.2.span isDigitN else ([], p2.2)
  let fracD := p3.1
  if intD = [] ∧ fracD = [] then none
  else
    match parseExpPart p3.2 with
    | none => none
    | some e =>
      let m : Nat := digitsToNat intD * 10 ^ fracD.length + digitsToNat fracD
      let f : Int := (fracD.length : Int)
      if 0 ≤ e - f then some ((m : Int) * 10 ^ (e - f).toNat, 1)
      else some ((m : Int), 10 ^ (f - e).toNat)

/-- Parse a signless numeric body: Infinity, or a decimal literal. -/
def unsignedLit (u : List Nat) : JSNum :=
  if u = str "Infinity" then .posInf
  else match parseDec u with
    | some p => .fin p.1 p.2
    | none => .nan

/-- Negation of a JS number. -/
def negJS : JSNum → JSNum
  | .nan => .nan
  | .posInf => .negInf
  | .negInf => .posInf
  | .fin n d => .fin (-n) d

/-- Model of JS `Number(string)` (the StringNumericLiteral grammar): trim JS
whitespace; empty means 0; then either a 0x/0o/0b non-decimal integer (no
sign allowed), or an optionally signed decimal literal or Infinity. -/
def jsStringToNumber (s : List Nat) : JSNum :=
  let t := jsTrim s
  if t.isEmpty then .fin 0 1
  else
    match t with
    | 48 :: 120 :: r | 48 :: 88 :: r =>
      (if r = [] then .nan else
       match radixVal 16 r with | some v => .fin v 1 | none => .nan)
    | 48 :: 111 :: r | 48 :: 79 :: r =>
      (if r = [] then .nan else
       match radixVal 8 r with | some v => .fin v 1 | none => .nan)
    | 48 :: 98 :: r | 48 :: 66 :: r =>
      (if r = [] then .nan else
       match radixVal 2 r with | some v => .fin v 1 | none => .nan)
    | 43 :: u => unsignedLit u
    | 45 :: u => negJS (unsignedLit u)
    | u => unsignedLit u

/-- Does a JS number equal a given natural number (exact comparison, the
semantics of indexing an integer-keyed JS object with it). -/
def jsNumEq (n : JSNum) (c : Nat) : Bool :=
  match n with
  | .fin num den => num = (c : Int) * (den : Int) && den ≠ 0
  | _ => false

/-- The ResponseCodes table of main.ts, in source order. -/
def ResponseCodes : List (Nat × List Nat) :=
  [(200, str "Service available, posting allowed"),
   (201, str "Service available, posting prohibited"),
   (281, str "Authentication accepted"),
   (381, str "Password required"),
   (400, str "Service temporarily unavailable"),
   (481, str "Authentication failed/rejected"),
   (482, str "Authentication commands issued out of sequence"),
   (502, str "Service permanently unavailable")]

/-- Lookup `ResponseCodes[Number(status)]`: a property access with a numeric
key, which can only hit one of the integer keys of the table. -/
def lookupCode (n : JSNum) : Option (List Nat) :=
  (ResponseCodes.find? (fun p => jsNumEq n p.1)).map (·.2)

/-- The transform of ResponseStream (main.ts): decode the first three bytes,
look the parsed number up in ResponseCodes, and if a (truthy) status text is
found replace the whole line with the template, else pass it through. -/
def responseTransform (line : List Nat) : List Nat :=
  let status := decodeUtf8 (line.take 3)
  match lookupCode (jsStringToNumber status) with
  | some statusText =>
    if statusText.isEmpty then line
    else encodeUtf8 (status ++ str " " ++ statusText ++ str "\r\n")
  | none => line

/-- The pipe of main.ts on the upstream-to-client leg: chunks flow from the
source straight through the stateless ResponseStream transform (one transform
invocation and one enqueue per arriving chunk; no other stage). -/
def pipeResponse (chunks : List (List Nat)) : List (List Nat) :=
  chunks.map responseTransform

/-- Accumulator step for CRLF framing. Modelled from the spec: the relay
pipeline is described as splitting arriving bytes into CRLF-terminated lines
before the transform stage (main.ts has no such stage in `pipe`); a final
unterminated fragment is kept as a trailing partial line. -/
def crlfAux (acc : List Nat) : List Nat → List (List Nat)
  | [] => if acc.isEmpty then [] else [acc.reverse]
  | 13 :: 10 :: rest => (acc.reverse ++ [13, 10]) :: crlfAux [] rest
  | b :: rest => crlfAux (b :: acc) rest

/-- Modelled from the spec: split a byte stream into CRLF-terminated lines
(the line framing the Relay Pipeline is specified to perform). -/
def crlfLines (bytes : List Nat) : List (List Nat) := crlfAux [] bytes

/-- Spec-side definition (claim C4 wording): the first three bytes of a line,
read literally as three decimal digits, form a status code present in the
ResponseCodeTable. -/
def specDecimal3 (bytes : List Nat) : Option Nat :=
  match bytes with
  | [a, b, c] =>
    if isDigitN a && isDigitN b && isDigitN c then
      let v := (a - 48) * 100 + (b - 48) * 10 + (c - 48)
      if (ResponseCodes.find? (fun p => p.1 = v)).isSome then some v else none
    else none
  | _ => none

/-- Spec-side definition: canonical text the ResponseCodeTable assigns to a
status code. -/
def specCanonical (code : Nat) : Option (List Nat) :=
  (ResponseCodes.find? (fun p => p.1 = code)).map (·.2)

/-- Spec-side definition (amended claim C4 wording): the decoded first three
bytes of the line, put through JS Number coercion, equal a status code
present in the ResponseCodeTable. -/
def specJsHit (line : List Nat) : Bool :=
  match jsStringToNumber (decodeUtf8 (line.take 3)) with
  | .fin num den =>
    (num = 200 * den ∨ num = 201 * den ∨ num = 281 * den ∨ num = 381 * den ∨
     num = 400 * den ∨ num = 481 * den ∨ num = 482 * den ∨ num = 502 * den)
      ∧ den ≠ 0
  | _ => false

section Helpers

/-- Once authenticated, RequestStream passes any chunk through unchanged and
leaves the state alone: every branch under a true authenticated flag is the
identity. -/
theorem requestTransform_of_auth (o : ConnectOptions)
    (valid : Option (List Nat) → Option (List Nat) → Bool)
    (st : AuthInfo) (line : List Nat) (h : st.authenticated = true) :
    requestTransform o valid st line = (st, line) := by
  simp [requestTransform, h]

end Helpers

/-- C3: once AuthInfo.authenticated is true, every subsequent chunk of the
session (AUTHINFO lines included) is forwarded unmodified and the state never
changes, so authenticated is never reset; and with no credential store
configured the session starts in that authenticated state. -/
theorem authenticated_terminal (o : ConnectOptions)
    (valid : Option (List Nat) → Option (List Nat) → Bool)
    (st : AuthInfo) (lines : List (List Nat)) (h : st.authenticated = true) :
    processLines o valid st lines = (st, lines) ∧
    (o.htpasswd = none → (initAuth o).authenticated = true) := by
  constructor
  · induction lines with
    | nil => rfl
    | cons l ls ih =>
      simp [processLines, requestTransform_of_auth o valid st l h, ih]
  · intro hn
    simp [initAuth, hn]

/-- Witness for authenticated_terminal at a concrete authenticated state and
an AUTHINFO line. -/
theorem authenticated_terminal_witness :
    processLines ⟨some (str "u"), some (str "p"), some (str "h")⟩ (fun _ _ => false)
      ⟨some [], true⟩ [str "AUTHINFO USER alice\r\n", str "BODY 1\r\n"]
      = (⟨some [], true⟩, [str "AUTHINFO USER alice\r\n", str "BODY 1\r\n"]) :=
  (authenticated_terminal ⟨some (str "u"), some (str "p"), some (str "h")⟩
    (fun _ _ => false) ⟨some [], true⟩
    [str "AUTHINFO USER alice\r\n", str "BODY 1\r\n"] rfl).1

/-- C6: a chunk that parseCommand does not recognize as AUTHINFO USER or
AUTHINFO PASS is forwarded byte-for-byte and the authinfo state is
unchanged. -/
theorem non_authinfo_identity (o : ConnectOptions)
    (valid : Option (List Nat) → Option (List Nat) → Bool)
    (st : AuthInfo) (line : List Nat)
    (h1 : parseCommand line ≠ some (str "AUTHINFO USER"))
    (h2 : parseCommand line ≠ some (str "AUTHINFO PASS")) :
    requestTransform o valid st line = (st, line) := by
  simp only [requestTransform]
  split_ifs <;> simp_all

/-- Witness for non_authinfo_identity at a BODY line. -/
theorem non_authinfo_identity_witness :
    requestTransform ⟨some (str "u"), some (str "p"), some (str "h")⟩
      (fun _ _ => true) ⟨some [], false⟩ (str "BODY 1\r\n")
      = (⟨some [], false⟩, str "BODY 1\r\n") :=
  non_authinfo_identity _ _ _ _ (by decide) (by decide)

/-- C7: with a credential store configured, an AUTHINFO PASS line arriving
before any AUTHINFO USER is validated against the initial empty claimed user;
when the store rejects the empty user the line is forwarded unmodified and
the state (empty claimed user, unauthenticated) is untouched. -/
theorem pass_without_user_passthrough (u p : Option (List Nat)) (hp : List Nat)
    (valid : Option (List Nat) → Option (List Nat) → Bool)
    (hcfg : hp ≠ [])
    (hv : valid (some []) (some (str "x")) = false) :
    initAuth ⟨u, p, some hp⟩ = ⟨some [], false⟩ ∧
    requestTransform ⟨u, p, some hp⟩ valid ⟨some [], false⟩ (str "AUTHINFO PASS x\r\n")
      = (⟨some [], false⟩, str "AUTHINFO PASS x\r\n") := by
  constructor
  · cases hp with
    | nil => exact absurd rfl hcfg
    | cons a t => rfl
  · have key : requestTransform ⟨u, p, some hp⟩ valid ⟨some [], false⟩
        (str "AUTHINFO PASS x\r\n")
        = if valid (some []) (some (str "x")) then
            (⟨some [], true⟩,
             encodeUtf8 (str "AUTHINFO PASS " ++ tmpl p ++ str "\r\n"))
          else (⟨some [], false⟩, str "AUTHINFO PASS x\r\n") := rfl
    rw [key, hv]
    rfl

/-- Witness for pass_without_user_passthrough at a concrete rejecting
store. -/
theorem pass_without_user_passthrough_witness :
    requestTransform ⟨some (str "u"), some (str "p"), some (str "h")⟩
      (fun _ _ => false) ⟨some [], false⟩ (str "AUTHINFO PASS x\r\n")
      = (⟨some [], false⟩, str "AUTHINFO PASS x\r\n") :=
  (pass_without_user_passthrough (some (str "u")) (some (str "p")) (str "h")
    (fun _ _ => false) (by decide) rfl).2

/-- C1: with a credential store configured and the session unauthenticated,
`AUTHINFO USER alice` then `AUTHINFO PASS secret`, when the store validates
(alice, secret), forward the operator-configured `AUTHINFO USER user` and
`AUTHINFO PASS pass` lines upstream, record alice as the claimed user, and
set authenticated to true. -/
theorem auth_success_substitution (uC pC hp : List Nat)
    (valid : Option (List Nat) → Option (List Nat) → Bool)
    (hcfg : hp ≠ [])
    (hv : valid (some (str "alice")) (some (str "secret")) = true) :
    initAuth ⟨some uC, some pC, some hp⟩ = ⟨some [], false⟩ ∧
    processLines ⟨some uC, some pC, some hp⟩ valid ⟨some [], false⟩
      [str "AUTHINFO USER alice\r\n", str "AUTHINFO PASS secret\r\n"]
      = (⟨some (str "alice"), true⟩,
         [encodeUtf8 (str "AUTHINFO USER " ++ uC ++ str "\r\n"),
          encodeUtf8 (str "AUTHINFO PASS " ++ pC ++ str "\r\n")]) := by
  constructor
  · cases hp with
    | nil => exact absurd rfl hcfg
    | cons a t => rfl
  · have k1 : requestTransform ⟨some uC, some pC, some hp⟩ valid ⟨some [], false⟩
        (str "AUTHINFO USER alice\r\n")
        = (⟨some (str "alice"), false⟩,
           encodeUtf8 (str "AUTHINFO USER " ++ uC ++ str "\r\n")) := rfl
    have k2 : requestTransform ⟨some uC, some pC, some hp⟩ valid
        ⟨some (str "alice"), false⟩ (str "AUTHINFO PASS secret\r\n")
        = if valid (some (str "alice")) (some (str "secret")) then
            (⟨some (str "alice"), true⟩,
             encodeUtf8 (str "AUTHINFO PASS " ++ pC ++ str "\r\n"))
          else (⟨some (str "alice"), false⟩, str "AUTHINFO PASS secret\r\n") := rfl
    simp [processLines, k1, k2, hv]

/-- Witness for auth_success_substitution at concrete configured credentials
and a concrete accepting store. -/
theorem auth_success_substitution_witness :
    processLines ⟨some (str "bob"), some (str "pw"), some (str "ht")⟩
      (fun u p => u = some (str "alice") && p = some (str "secret"))
      ⟨some [], false⟩
      [str "AUTHINFO USER alice\r\n", str "AUTHINFO PASS secret\r\n"]
      = (⟨some (str "alice"), true⟩,
         [encodeUtf8 (str "AUTHINFO USER " ++ str "bob" ++ str "\r\n"),
          encodeUtf8 (str "AUTHINFO PASS " ++ str "pw" ++ str "\r\n")]) :=
  (auth_success_substitution (str "bob") (str "pw") (str "ht")
    (fun u p => u = some (str "alice") && p = some (str "secret"))
    (by decide) (by decide)).2

/-- C2 counterexample: with configured upstream user "bob" and a store that
rejects everything, the upstream does NOT receive the original
`AUTHINFO USER alice` line verbatim: the USER line was already rewritten to
the configured user before validation could fail. -/
theorem auth_failure_verbatim_cx :
    (processLines ⟨some (str "bob"), some (str "pw"), some (str "ht")⟩
      (fun _ _ => false) ⟨some [], false⟩
      [str "AUTHINFO USER alice\r\n", str "AUTHINFO PASS secret\r\n"]).2
      ≠ [str "AUTHINFO USER alice\r\n", str "AUTHINFO PASS secret\r\n"] := by
  decide

/-- C2 amended: with a credential store configured and the session
unauthenticated, `AUTHINFO USER alice` then `AUTHINFO PASS secret`, when the
store rejects (alice, secret), forward the substituted
`AUTHINFO USER user` line (the USER line is rewritten before validation
happens) followed by the original `AUTHINFO PASS secret` line verbatim;
authenticated remains false and the claimed user stays recorded. -/
theorem auth_failure_passthrough (uC pC hp : List Nat)
    (valid : Option (List Nat) → Option (List Nat) → Bool)
    (hcfg : hp ≠ [])
    (hv : valid (some (str "alice")) (some (str "secret")) = false) :
    initAuth ⟨some uC, some pC, some hp⟩ = ⟨some [], false⟩ ∧
    processLines ⟨some uC, some pC, some hp⟩ valid ⟨some [], false⟩
      [str "AUTHINFO USER alice\r\n", str "AUTHINFO PASS secret\r\n"]
      = (⟨some (str "alice"), false⟩,
         [encodeUtf8 (str "AUTHINFO USER " ++ uC ++ str "\r\n"),
          str "AUTHINFO PASS secret\r\n"]) := by
  constructor
  · cases hp with
    | nil => exact absurd rfl hcfg
    | cons a t => rfl
  · have k1 : requestTransform ⟨some uC, some pC, some hp⟩ valid ⟨some [], false⟩
        (str "AUTHINFO USER alice\r\n")
        = (⟨some (str "alice"), false⟩,
           encodeUtf8 (str "AUTHINFO USER " ++ uC ++ str "\r\n")) := rfl
    have k2 : requestTransform ⟨some uC, some pC, some hp⟩ valid
        ⟨some (str "alice"), false⟩ (str "AUTHINFO PASS secret\r\n")
        = if valid (some (str "alice")) (some (str "secret")) then
            (⟨some (str "alice"), true⟩,
             encodeUtf8 (str "AUTHINFO PASS " ++ pC ++ str "\r\n"))
          else (⟨some (str "alice"), false⟩, str "AUTHINFO PASS secret\r\n") := rfl
    simp [processLines, k1, k2, hv]

/-- Witness for auth_failure_passthrough at concrete configured credentials
and a rejecting store. -/
theorem auth_failure_passthrough_witness :
    processLines ⟨some (str "bob"), some (str "pw"), some (str "ht")⟩
      (fun _ _ => false) ⟨some [], false⟩
      [str "AUTHINFO USER alice\r\n", str "AUTHINFO PASS secret\r\n"]
      = (⟨some (str "alice"), false⟩,
         [encodeUtf8 (str "AUTHINFO USER " ++ str "bob" ++ str "\r\n"),
          str "AUTHINFO PASS secret\r\n"]) :=
  (auth_failure_passthrough (str "bob") (str "pw") (str "ht")
    (fun _ _ => false) (by decide) rfl).2

section ResponseHelpers

/-- A line whose decoded first three bytes do not coerce to a status code of
the table is forwarded unchanged by ResponseStream. -/
theorem responseTransform_id_of_not_hit (line : List Nat)
    (h : specJsHit line = false) : responseTransform line = line := by
  have hlook : lookupCode (jsStringToNumber (decodeUtf8 (line.take 3))) = none := by
    unfold specJsHit at h
    cases hn : jsStringToNumber (decodeUtf8 (line.take 3)) with
    | nan => decide
    | posInf => decide
    | negInf => decide
    | fin num den =>
      rw [hn] at h
      replace h : ¬((num = 200 * (den : Int) ∨ num = 201 * (den : Int) ∨
          num = 281 * (den : Int) ∨ num = 381 * (den : Int) ∨
          num = 400 * (den : Int) ∨ num = 481 * (den : Int) ∨
          num = 482 * (den : Int) ∨ num = 502 * (den : Int)) ∧ den ≠ 0) := by
        simpa using h
      push_neg at h
      by_cases hden : den = 0
      · simp [lookupCode, ResponseCodes, jsNumEq, List.find?, hden]
      · have hnd : ¬(num = 200 * (den : Int) ∨ num = 201 * (den : Int) ∨
            num = 281 * (den : Int) ∨ num = 381 * (den : Int) ∨
            num = 400 * (den : Int) ∨ num = 481 * (den : Int) ∨
            num = 482 * (den : Int) ∨ num = 502 * (den : Int)) :=
          fun hx => hden (h hx)
        push_neg at hnd
        obtain ⟨e1, e2, e3, e4, e5, e6, e7, e8⟩ := hnd
        simp [lookupCode, ResponseCodes, jsNumEq, List.find?, hden,
              e1, e2, e3, e4, e5, e6, e7, e8]
  simp only [responseTransform, hlook]

/-- If the first three bytes of a line are known and their decoded form looks
up to a nonempty status text, ResponseStream emits the canonical template. -/
theorem responseTransform_take3 (line pre t : List Nat)
    (hk : line.take 3 = pre)
    (hl : lookupCode (jsStringToNumber (decodeUtf8 pre)) = some t)
    (hne : t.isEmpty = false) :
    responseTransform line = encodeUtf8 (decodeUtf8 pre ++ str " " ++ t ++ str "\r\n") := by
  simp only [responseTransform, hk, hl, hne]
  rfl

/-- A successful literal three-digit reading determines the bytes and the
code: only the eight digit triples of the table qualify. -/
theorem specDecimal3_shape (bytes : List Nat) (c : Nat)
    (h : specDecimal3 bytes = some c) :
    (bytes = str "200" ∧ c = 200) ∨ (bytes = str "201" ∧ c = 201) ∨
    (bytes = str "281" ∧ c = 281) ∨ (bytes = str "381" ∧ c = 381) ∨
    (bytes = str "400" ∧ c = 400) ∨ (bytes = str "481" ∧ c = 481) ∨
    (bytes = str "482" ∧ c = 482) ∨ (bytes = str "502" ∧ c = 502) := by
  rcases bytes with _ | ⟨x, _ | ⟨y, _ | ⟨z, _ | ⟨w, ws⟩⟩⟩⟩
  · exact Option.noConfusion h
  · exact Option.noConfusion h
  · exact Option.noConfusion h
  case cons.cons.cons.nil =>
    simp only [specDecimal3] at h
    by_cases hd : (isDigitN x && isDigitN y && isDigitN z) = true
    case neg => rw [if_neg hd] at h; exact Option.noConfusion h
    rw [if_pos hd] at h
    by_cases hf : (ResponseCodes.find?
        (fun p => p.1 = (x - 48) * 100 + (y - 48) * 10 + (z - 48))).isSome = true
    case neg => rw [if_neg hf] at h; exact Option.noConfusion h
    rw [if_pos hf] at h
    · simp only [Option.some.injEq] at h
      simp only [Bool.and_eq_true, decide_eq_true_eq, isDigitN] at hd
      obtain ⟨⟨hx, hy⟩, hz⟩ := hd
      have hv : (x - 48) * 100 + (y - 48) * 10 + (z - 48) = 200 ∨
          (x - 48) * 100 + (y - 48) * 10 + (z - 48) = 201 ∨
          (x - 48) * 100 + (y - 48) * 10 + (z - 48) = 281 ∨
          (x - 48) * 100 + (y - 48) * 10 + (z - 48) = 381 ∨
          (x - 48) * 100 + (y - 48) * 10 + (z - 48) = 400 ∨
          (x - 48) * 100 + (y - 48) * 10 + (z - 48) = 481 ∨
          (x - 48) * 100 + (y - 48) * 10 + (z - 48) = 482 ∨
          (x - 48) * 100 + (y - 48) * 10 + (z - 48) = 502 := by
        by_contra hcon
        push_neg at hcon
        obtain ⟨n1, n2, n3, n4, n5, n6, n7, n8⟩ := hcon
        simp [ResponseCodes, List.find?, Ne.symm n1, Ne.symm n2, Ne.symm n3,
              Ne.symm n4, Ne.symm n5, Ne.symm n6, Ne.symm n7, Ne.symm n8] at hf
      rcases hv with hv | hv | hv | hv | hv | hv | hv | hv
      · have : x = 50 ∧ y = 48 ∧ z = 48 := by omega
        obtain ⟨hxv, hyv, hzv⟩ := this
        subst hxv; subst hyv; subst hzv
        exact Or.inl ⟨by decide, by omega⟩
      · have : x = 50 ∧ y = 48 ∧ z = 49 := by omega
        obtain ⟨hxv, hyv, hzv⟩ := this
        subst hxv; subst hyv; subst hzv
        exact Or.inr (Or.inl ⟨by decide, by omega⟩)
      · have : x = 50 ∧ y = 56 ∧ z = 49 := by omega
        obtain ⟨hxv, hyv, hzv⟩ := this
        subst hxv; subst hyv; subst hzv
        exact Or.inr (Or.inr (Or.inl ⟨by decide, by omega⟩))
      · have : x = 51 ∧ y = 56 ∧ z = 49 := by omega
        obtain ⟨hxv, hyv, hzv⟩ := this
        subst hxv; subst hyv; subst hzv
        exact Or.inr (Or.inr (Or.inr (Or.inl ⟨by decide, by omega⟩)))
      · have : x = 52 ∧ y = 48 ∧ z = 48 := by omega
        obtain ⟨hxv, hyv, hzv⟩ := this
        subst hxv; subst hyv; subst hzv
        exact Or.inr (Or.inr (Or.inr (Or.inr (Or.inl ⟨by decide, by omega⟩))))
      · have : x = 52 ∧ y = 56 ∧ z = 49 := by omega
        obtain ⟨hxv, hyv, hzv⟩ := this
        subst hxv; subst hyv; subst hzv
        exact Or.inr (Or.inr (Or.inr (Or.inr (Or.inr (Or.inl ⟨by decide, by omega⟩)))))
      · have : x = 52 ∧ y = 56 ∧ z = 50 := by omega
        obtain ⟨hxv, hyv, hzv⟩ := this
        subst hxv; subst hyv; subst hzv
        exact Or.inr (Or.inr (Or.inr (Or.inr (Or.inr (Or.inr (Or.inl ⟨by decide, by omega⟩))))))
      · have : x = 53 ∧ y = 48 ∧ z = 50 := by omega
        obtain ⟨hxv, hyv, hzv⟩ := this
        subst hxv; subst hyv; subst hzv
        exact Or.inr (Or.inr (Or.inr (Or.inr (Or.inr (Or.inr (Or.inr ⟨by decide, by omega⟩))))))
  case cons.cons.cons.cons =>
    exact Option.noConfusion h

end ResponseHelpers

/-- C4 counterexample: the line `2e2 ok` does not start with the decimal
digits of a table code, yet JS Number coercion of its first three bytes gives
200, so ResponseStream rewrites it instead of passing it through. -/
theorem response_decimal_iff_cx :
    specDecimal3 ((str "2e2 ok\r\n").take 3) = none ∧
    responseTransform (str "2e2 ok\r\n")
      = str "2e2 Service available, posting allowed\r\n" ∧
    responseTransform (str "2e2 ok\r\n") ≠ str "2e2 ok\r\n" := by
  decide

/-- C4 amended: a line whose decoded first three bytes coerce (by JS Number
semantics, which beyond plain digit triples also admit exponent forms such as
2e2) to no table code passes through byte-for-byte; a line whose first three
bytes are literally the decimal digits of a table code is replaced by those
three bytes, a space, the canonical text, and CRLF. -/
theorem response_code_normalization (line : List Nat) :
    (specJsHit line = false → responseTransform line = line) ∧
    (∀ c, specDecimal3 (line.take 3) = some c →
       responseTransform line
         = encodeUtf8 (line.take 3 ++ str " " ++ (specCanonical c).getD []
             ++ str "\r\n")) := by
  refine ⟨responseTransform_id_of_not_hit line, ?_⟩
  intro c h1
  rcases specDecimal3_shape _ _ h1 with ⟨hk, hc⟩ | ⟨hk, hc⟩ | ⟨hk, hc⟩ |
    ⟨hk, hc⟩ | ⟨hk, hc⟩ | ⟨hk, hc⟩ | ⟨hk, hc⟩ | ⟨hk, hc⟩ <;> subst hc
  · rw [responseTransform_take3 line (str "200")
        (str "Service available, posting allowed") hk (by decide) (by decide), hk]
    decide
  · rw [responseTransform_take3 line (str "201")
        (str "Service available, posting prohibited") hk (by decide) (by decide), hk]
    decide
  · rw [responseTransform_take3 line (str "281")
        (str "Authentication accepted") hk (by decide) (by decide), hk]
    decide
  · rw [responseTransform_take3 line (str "381")
        (str "Password required") hk (by decide) (by decide), hk]
    decide
  · rw [responseTransform_take3 line (str "400")
        (str "Service temporarily unavailable") hk (by decide) (by decide), hk]
    decide
  · rw [responseTransform_take3 line (str "481")
        (str "Authentication failed/rejected") hk (by decide) (by decide), hk]
    decide
  · rw [responseTransform_take3 line (str "482")
        (str "Authentication commands issued out of sequence") hk (by decide) (by decide), hk]
    decide
  · rw [responseTransform_take3 line (str "502")
        (str "Service permanently unavailable") hk (by decide) (by decide), hk]
    decide

/-- Witness for response_code_normalization: a 200 status line with junk text
is rewritten to the canonical template. -/
theorem response_code_normalization_witness :
    responseTransform (str "200 junk\r\n")
      = encodeUtf8 ((str "200 junk\r\n").take 3 ++ str " "
          ++ (specCanonical 200).getD [] ++ str "\r\n") :=
  (response_code_normalization (str "200 junk\r\n")).2 200 (by decide)

/-- C9 counterexample: in a multi-line response, a payload line that happens
to begin with the bytes `200` is rewritten by the stateless normalizer, so
lines beyond the status line are not always relayed byte-for-byte. -/
theorem payload_rewrite_cx :
    pipeResponse
      [str "215 information follows\r\n", str "200 cats.jpg\r\n", str ".\r\n"]
      = [str "215 information follows\r\n",
         str "200 Service available, posting allowed\r\n", str ".\r\n"] ∧
    str "200 cats.jpg\r\n" ≠ str "200 Service available, posting allowed\r\n" := by
  decide

/-- C9 amended: the normalizer is a stateless per-line rewrite, so payload
lines are relayed byte-for-byte exactly when their decoded first three bytes
do not coerce to a table code; processing distributes over concatenation of
line sequences (no buffering across lines). -/
theorem payload_passthrough (lines : List (List Nat))
    (h : ∀ l ∈ lines, specJsHit l = false) :
    pipeResponse lines = lines ∧
    ∀ (a b : List (List Nat)), pipeResponse (a ++ b) = pipeResponse a ++ pipeResponse b := by
  constructor
  · induction lines with
    | nil => rfl
    | cons l ls ih =>
      have hl := responseTransform_id_of_not_hit l (h l (by simp))
      have hls := ih (fun x hx => h x (by simp [hx]))
      simp [pipeResponse] at hls ⊢
      exact ⟨hl, hls⟩
  · intro a b
    simp [pipeResponse]

/-- Witness for payload_passthrough at concrete payload lines of an article
body. -/
theorem payload_passthrough_witness :
    pipeResponse [str "some body text\r\n", str ".\r\n"]
      = [str "some body text\r\n", str ".\r\n"] :=
  (payload_passthrough [str "some body text\r\n", str ".\r\n"] (by decide)).1

/-- C8: the pipe of main.ts performs no CRLF line framing: a single arriving
chunk holding two CRLF-terminated lines is handed to one transform invocation
and forwarded unchanged, whereas the specified framing would hand the two
lines to separate invocations and rewrite the second one. -/
theorem pipe_no_line_framing :
    pipeResponse [str "999 a\r\n200 ok\r\n"] = [str "999 a\r\n200 ok\r\n"] ∧
    crlfLines (str "999 a\r\n200 ok\r\n") = [str "999 a\r\n", str "200 ok\r\n"] ∧
    (crlfLines (str "999 a\r\n200 ok\r\n")).map responseTransform
      ≠ crlfLines (str "999 a\r\n200 ok\r\n") := by
  decide

section ParseHelpers

/-- The empty list is a Boolean prefix of everything. -/
theorem nil_prefixOf (b : List Nat) : List.isPrefixOf [] b = true := by
  cases b <;> rfl

/-- A Boolean prefix gives a length bound. -/
theorem prefixOf_length_le (a : List Nat) :
    ∀ (b : List Nat), a.isPrefixOf b = true → a.length ≤ b.length := by
  induction a with
  | nil => intro b _; simp
  | cons x xs ih =>
    intro b h
    cases b with
    | nil => simp [List.isPrefixOf] at h
    | cons y ys =>
      simp only [List.isPrefixOf, Bool.and_eq_true, beq_iff_eq] at h
      simp only [List.length_cons]
      exact Nat.succ_le_succ (ih ys h.2)

/-- Boolean prefix relation is transitive. -/
theorem prefixOf_trans (a : List Nat) :
    ∀ (b c : List Nat), a.isPrefixOf b = true → b.isPrefixOf c = true →
    a.isPrefixOf c = true := by
  induction a with
  | nil => intro b c _ _; exact nil_prefixOf c
  | cons x xs ih =>
    intro b c h1 h2
    cases b with
    | nil => simp [List.isPrefixOf] at h1
    | cons y ys =>
      cases c with
      | nil => simp [List.isPrefixOf] at h2
      | cons z zs =>
        simp only [List.isPrefixOf, Bool.and_eq_true, beq_iff_eq] at h1 h2 ⊢
        exact ⟨h1.1.trans h2.1, ih ys zs h1.2 h2.2⟩

/-- A list is a Boolean prefix of itself extended by anything. -/
theorem prefixOf_self_append (a r : List Nat) : a.isPrefixOf (a ++ r) = true := by
  induction a with
  | nil => exact nil_prefixOf r
  | cons x xs ih => simp [List.isPrefixOf, ih]

/-- Two Boolean prefixes of the same list are comparable. -/
theorem prefixOf_comparable (l : List Nat) :
    ∀ (a b : List Nat), a.isPrefixOf l = true → b.isPrefixOf l = true →
    a.isPrefixOf b = true ∨ b.isPrefixOf a = true := by
  induction l with
  | nil =>
    intro a b ha _
    cases a with
    | nil => exact Or.inl (nil_prefixOf b)
    | cons x xs => simp [List.isPrefixOf] at ha
  | cons z zs ih =>
    intro a b ha hb
    cases a with
    | nil => exact Or.inl (nil_prefixOf b)
    | cons x xs =>
      cases b with
      | nil => exact Or.inr (nil_prefixOf (x :: xs))
      | cons y ys =>
        simp only [List.isPrefixOf, Bool.and_eq_true, beq_iff_eq] at ha hb
        rcases ih xs ys ha.2 hb.2 with h | h
        · left
          simp only [List.isPrefixOf, Bool.and_eq_true, beq_iff_eq]
          exact ⟨ha.1.trans hb.1.symm, h⟩
        · right
          simp only [List.isPrefixOf, Bool.and_eq_true, beq_iff_eq]
          exact ⟨hb.1.trans ha.1.symm, h⟩

/-- Appending unknown bytes after a block no command starts over cannot
change prefix facts: when P is not itself a prefix of e, whether e is a
prefix of P ++ r is decided within P. -/
theorem prefixOf_append_eq (e P r : List Nat) (h : P.isPrefixOf e = false) :
    e.isPrefixOf (P ++ r) = e.isPrefixOf P := by
  cases hep : e.isPrefixOf P with
  | true => exact prefixOf_trans e P (P ++ r) hep (prefixOf_self_append P r)
  | false =>
    cases h2 : e.isPrefixOf (P ++ r) with
    | false => rfl
    | true =>
      rcases prefixOf_comparable (P ++ r) e P h2 (prefixOf_self_append P r) with hc | hc
      · exact absurd hc (by simp [hep])
      · exact absurd hc (by simp [h])

/-- lastMatch only looks at the per-entry prefix verdicts. -/
theorem lastMatch_congr (l1 l2 : List Nat) (cs : List (List Nat))
    (h : ∀ e ∈ cs, e.isPrefixOf l1 = e.isPrefixOf l2) :
    lastMatch l1 cs = lastMatch l2 cs := by
  induction cs with
  | nil => rfl
  | cons c cs ih =>
    simp only [lastMatch]
    rw [ih (fun e he => h e (List.mem_cons_of_mem c he)), h c (List.mem_cons_self c cs)]

/-- The foldl of parseCommand computes the canon of the last matching
entry. -/
theorem parse_foldl (line : List Nat) (cs : List (List Nat)) (acc : Option (List Nat)) :
    cs.foldl (fun result command =>
        if command.isPrefixOf line then some (canon command) else result) acc
      = match lastMatch line cs with
        | some e => some (canon e)
        | none => acc := by
  induction cs generalizing acc with
  | nil => rfl
  | cons c cs ih =>
    simp only [List.foldl_cons, lastMatch]
    rw [ih]
    cases h : lastMatch line cs with
    | some e => rfl
    | none =>
      by_cases hp : c.isPrefixOf line = true
      · simp [hp]
      · simp [hp]

/-- parseCommand in terms of lastMatch. -/
theorem parseCommand_eq_lastMatch (line : List Nat) :
    parseCommand line = (lastMatch line COMMANDS).map canon := by
  unfold parseCommand
  rw [parse_foldl]
  cases lastMatch line COMMANDS <;> rfl

/-- lastMatch is none exactly when no entry is a prefix of the line. -/
theorem lastMatch_none_iff (line : List Nat) (cs : List (List Nat)) :
    lastMatch line cs = none ↔ ∀ e ∈ cs, e.isPrefixOf line = false := by
  induction cs with
  | nil => simp [lastMatch]
  | cons c cs ih =>
    simp only [lastMatch]
    cases h : lastMatch line cs with
    | some e =>
      constructor
      · intro hcon; exact Option.noConfusion hcon
      · intro hall
        have h0 : lastMatch line cs = none :=
          ih.mpr (fun x hx => hall x (List.mem_cons_of_mem c hx))
        rw [h] at h0; exact Option.noConfusion h0
    | none =>
      by_cases hp : c.isPrefixOf line = true
      · rw [if_pos hp]
        constructor
        · intro hcon; exact Option.noConfusion hcon
        · intro hall
          rw [hall c (List.mem_cons_self c cs)] at hp
          exact Bool.noConfusion hp
      · rw [if_neg hp]
        constructor
        · intro _ x hx
          rcases List.mem_cons.mp hx with rfl | hx2
          · exact Bool.eq_false_iff.mpr hp
          · exact (ih.mp h) x hx2
        · intro _; rfl

/-- A lastMatch result is a matching member of the list. -/
theorem lastMatch_some_mem (line : List Nat) (cs : List (List Nat)) (e : List Nat)
    (h : lastMatch line cs = some e) : e ∈ cs ∧ e.isPrefixOf line = true := by
  induction cs with
  | nil => exact Option.noConfusion h
  | cons c cs ih =>
    simp only [lastMatch] at h
    cases h2 : lastMatch line cs with
    | some e2 =>
      rw [h2] at h
      obtain rfl : e2 = e := Option.some.injEq _ _ |>.mp h
      obtain ⟨hm, hp⟩ := ih h2
      exact ⟨List.mem_cons_of_mem c hm, hp⟩
    | none =>
      rw [h2] at h
      by_cases hp : c.isPrefixOf line = true
      · rw [if_pos hp] at h
        obtain rfl : c = e := Option.some.injEq _ _ |>.mp h
        exact ⟨List.mem_cons_self _ _, hp⟩
      · rw [if_neg hp] at h; exact Option.noConfusion h

/-- Under a pairwise length-ordering discipline among matches, lastMatch
returns a longest matching entry. -/
theorem lastMatch_longest (line : List Nat) (cs : List (List Nat))
    (hpw : cs.Pairwise (fun a b =>
      a.isPrefixOf line = true → b.isPrefixOf line = true → a.length ≤ b.length))
    (e : List Nat) (he : lastMatch line cs = some e) :
    ∀ x ∈ cs, x.isPrefixOf line = true → x.length ≤ e.length := by
  induction cs with
  | nil => exact fun x hx => absurd hx (List.not_mem_nil x)
  | cons c cs ih =>
    rw [List.pairwise_cons] at hpw
    obtain ⟨hc, hcs⟩ := hpw
    intro x hx hxp
    simp only [lastMatch] at he
    cases h2 : lastMatch line cs with
    | some e2 =>
      rw [h2] at he
      have heq : e2 = e := Option.some.injEq _ _ |>.mp he
      rcases List.mem_cons.mp hx with rfl | hx2
      · rw [← heq]
        exact hc e2 (lastMatch_some_mem line cs e2 h2).1 hxp (lastMatch_some_mem line cs e2 h2).2
      · rw [heq] at h2
        exact ih hcs h2 x hx2 hxp
    | none =>
      rw [h2] at he
      by_cases hp : c.isPrefixOf line = true
      · rw [if_pos hp] at he
        have heq : c = e := Option.some.injEq _ _ |>.mp he
        rw [← heq]
        rcases List.mem_cons.mp hx with rfl | hx2
        · exact le_rfl
        · rw [(lastMatch_none_iff line cs).mp h2 x hx2] at hxp
          exact Bool.noConfusion hxp
      · rw [if_neg hp] at he; exact Option.noConfusion he

/-- No registered command is a strict prefix of an earlier one in the
COMMANDS table (the table is sorted, so prefixes come first). -/
theorem commands_no_back_edge :
    COMMANDS.Pairwise (fun a b => b.isPrefixOf a = true → a = b) := by decide

/-- Among entries matching a common line, later COMMANDS entries are at
least as long. -/
theorem commands_pairwise_len (line : List Nat) :
    COMMANDS.Pairwise (fun a b =>
      a.isPrefixOf line = true → b.isPrefixOf line = true → a.length ≤ b.length) := by
  refine commands_no_back_edge.imp ?_
  intro a b hq hpa hpb
  rcases prefixOf_comparable line a b hpa hpb with h | h
  · exact prefixOf_length_le a b h
  · exact le_of_eq (congrArg List.length (hq h))

end ParseHelpers

/-- C5: parseCommand returns none exactly when no registered vocabulary entry
is a byte prefix of the line, and otherwise its result is the canonical
uppercase form of a longest matching entry (so a line starting with
LIST ACTIVE.TIMES is never reported as plain LIST). -/
theorem parse_longest_match (line : List Nat) :
    (parseCommand line = none ↔ ∀ e ∈ COMMANDS, e.isPrefixOf line = false) ∧
    (∀ c, parseCommand line = some c →
      ∃ e, e ∈ COMMANDS ∧ e.isPrefixOf line = true ∧ c = canon e ∧
        ∀ x ∈ COMMANDS, x.isPrefixOf line = true → x.length ≤ e.length) := by
  constructor
  · rw [parseCommand_eq_lastMatch, Option.map_eq_none']
    exact lastMatch_none_iff line COMMANDS
  · intro c h
    rw [parseCommand_eq_lastMatch] at h
    rcases Option.map_eq_some'.mp h with ⟨e, he, hc⟩
    obtain ⟨hm, hp⟩ := lastMatch_some_mem line COMMANDS e he
    exact ⟨e, hm, hp, hc.symm, lastMatch_longest line COMMANDS (commands_pairwise_len line) e he⟩

/-- Witness for parse_longest_match on the LIST ACTIVE.TIMES example. -/
theorem parse_longest_match_witness :
    parseCommand (str "LIST ACTIVE.TIMES\r\n") = some (str "LIST ACTIVE.TIMES") ∧
    ∃ e, e ∈ COMMANDS ∧ e.isPrefixOf (str "LIST ACTIVE.TIMES\r\n") = true ∧
      str "LIST ACTIVE.TIMES" = canon e ∧
      ∀ x ∈ COMMANDS, x.isPrefixOf (str "LIST ACTIVE.TIMES\r\n") = true →
        x.length ≤ e.length :=
  ⟨by decide,
   (parse_longest_match (str "LIST ACTIVE.TIMES\r\n")).2 (str "LIST ACTIVE.TIMES")
     (by decide)⟩

section ArgHelpers

/-- The UTF-8 decoder worker is the identity on ASCII bytes when the fuel
covers the input. -/
theorem decodeGo_ascii (fuel : Nat) :
    ∀ (l : List Nat), (∀ b ∈ l, b ≤ 127) → l.length ≤ fuel → decodeGo fuel l = l := by
  induction fuel with
  | zero =>
    intro l h hl
    cases l with
    | nil => rfl
    | cons b t => simp at hl
  | succ f ih =>
    intro l h hl
    cases l with
    | nil => rfl
    | cons b t =>
      have hb : b ≤ 127 := h b (List.mem_cons_self b t)
      have ht : t.length ≤ f := by simp at hl; omega
      simp only [decodeGo, if_pos hb]
      rw [ih t (fun x hx => h x (List.mem_cons_of_mem b hx)) ht]

/-- The UTF-8 decoder is the identity on ASCII byte lists. -/
theorem decodeUtf8_ascii (l : List Nat) (h : ∀ b ∈ l, b ≤ 127) : decodeUtf8 l = l :=
  decodeGo_ascii l.length l h le_rfl

/-- Trimming a line whose body starts and ends with non-whitespace removes
exactly the trailing CRLF. -/
theorem jsTrim_line (b : Nat) (bs body : List Nat)
    (hbody : body = b :: bs) (hb : jsWhiteN b = false)
    (hlast : ∀ c, body.getLast? = some c → jsWhiteN c = false) :
    jsTrim (body ++ str "\r\n") = body := by
  subst hbody
  unfold jsTrim
  rw [show (b :: bs) ++ str "\r\n" = b :: (bs ++ str "\r\n") from rfl]
  rw [List.dropWhile_cons, if_neg (by simp [hb])]
  rw [show b :: (bs ++ str "\r\n") = (b :: bs) ++ str "\r\n" from rfl]
  rw [List.reverse_append]
  rw [show (str "\r\n").reverse = [10, 13] from by decide]
  rw [show ([10, 13] ++ (b :: bs).reverse) = 10 :: 13 :: (b :: bs).reverse from rfl]
  rw [List.dropWhile_cons, if_pos (by decide), List.dropWhile_cons, if_pos (by decide)]
  cases hrev : (b :: bs).reverse with
  | nil => exact absurd hrev (by simp)
  | cons c l2 =>
    have hc : jsWhiteN c = false := by
      apply hlast
      rw [← List.head?_reverse, hrev]; rfl
    rw [List.dropWhile_cons, if_neg (by simp [hc]), ← hrev, List.reverse_reverse]

/-- Splitting a space-free fragment yields that fragment alone. -/
theorem jsSplitSpace_nosep (xs : List Nat) (h : ∀ x ∈ xs, x ≠ 32) :
    jsSplitSpace xs = [xs] := by
  induction xs with
  | nil => rfl
  | cons c t ih =>
    simp only [jsSplitSpace]
    rw [if_neg (h c (List.mem_cons_self c t)),
        ih (fun x hx => h x (List.mem_cons_of_mem c hx))]

/-- Splitting peels one space-free token before each separator. -/
theorem jsSplitSpace_sep (xs : List Nat) (ys : List Nat) (h : ∀ x ∈ xs, x ≠ 32) :
    jsSplitSpace (xs ++ 32 :: ys) = xs :: jsSplitSpace ys := by
  induction xs with
  | nil => simp [jsSplitSpace]
  | cons c t ih =>
    simp only [List.cons_append, jsSplitSpace, List.append_eq]
    rw [if_neg (h c (List.mem_cons_self c t)),
        ih (fun x hx => h x (List.mem_cons_of_mem c hx))]

/-- parseCommand recognizes AUTHINFO USER whatever follows the prefix. -/
theorem parseCommand_ext_user (r : List Nat) :
    parseCommand (str "AUTHINFO USER " ++ r) = some (str "AUTHINFO USER") := by
  rw [parseCommand_eq_lastMatch]
  have hall : ∀ e ∈ COMMANDS, (str "AUTHINFO USER ").isPrefixOf e = false := by decide
  rw [lastMatch_congr (str "AUTHINFO USER " ++ r) (str "AUTHINFO USER ") COMMANDS
    (fun e he => prefixOf_append_eq e (str "AUTHINFO USER ") r (hall e he))]
  decide

/-- parseCommand recognizes AUTHINFO PASS whatever follows the prefix. -/
theorem parseCommand_ext_pass (r : List Nat) :
    parseCommand (str "AUTHINFO PASS " ++ r) = some (str "AUTHINFO PASS") := by
  rw [parseCommand_eq_lastMatch]
  have hall : ∀ e ∈ COMMANDS, (str "AUTHINFO PASS ").isPrefixOf e = false := by decide
  rw [lastMatch_congr (str "AUTHINFO PASS " ++ r) (str "AUTHINFO PASS ") COMMANDS
    (fun e he => prefixOf_append_eq e (str "AUTHINFO PASS ") r (hall e he))]
  decide

end ArgHelpers

/-- C10: on a recognized AUTHINFO USER or AUTHINFO PASS line handled while
unauthenticated, only the third space-separated token of the decoded line is
recorded as the claimed user, respectively passed to credential validation;
any bytes after a further space are ignored for recording and validation,
yet on validation failure the full original line is forwarded upstream. -/
theorem third_token_only (uC pC hp : List Nat) (u : Option (List Nat))
    (valid : Option (List Nat) → Option (List Nat) → Bool)
    (s t : List Nat)
    (hsa : ∀ b ∈ s, b ≤ 127) (hss : ∀ b ∈ s, b ≠ 32)
    (ht0 : t ≠ []) (hta : ∀ b ∈ t, b ≤ 127)
    (htl : ∀ b, t.getLast? = some b → jsWhiteN b = false) :
    (requestTransform ⟨some uC, some pC, some hp⟩ valid ⟨u, false⟩
        (str "AUTHINFO USER " ++ (s ++ 32 :: (t ++ str "\r\n")))
      = (⟨some s, false⟩,
         encodeUtf8 (str "AUTHINFO USER " ++ uC ++ str "\r\n"))) ∧
    (valid u (some s) = false →
      requestTransform ⟨some uC, some pC, some hp⟩ valid ⟨u, false⟩
        (str "AUTHINFO PASS " ++ (s ++ 32 :: (t ++ str "\r\n")))
      = (⟨u, false⟩, str "AUTHINFO PASS " ++ (s ++ 32 :: (t ++ str "\r\n")))) ∧
    (valid u (some s) = true →
      requestTransform ⟨some uC, some pC, some hp⟩ valid ⟨u, false⟩
        (str "AUTHINFO PASS " ++ (s ++ 32 :: (t ++ str "\r\n")))
      = (⟨u, true⟩, encodeUtf8 (str "AUTHINFO PASS " ++ pC ++ str "\r\n"))) := by
  have hcrlf : ∀ x ∈ str "\r\n", x ≤ 127 := by decide
  have hlastT : ∀ (P : List Nat) (c : Nat),
      (P ++ (s ++ 32 :: t)).getLast? = some c → jsWhiteN c = false := by
    intro P c hc
    have h1 : (P ++ (s ++ 32 :: t)).getLast? = t.getLast? := by
      rw [List.getLast?_append_of_ne_nil _ (show s ++ 32 :: t ≠ [] by simp),
          show s ++ 32 :: t = (s ++ [32]) ++ t from by simp,
          List.getLast?_append_of_ne_nil _ ht0]
    exact htl c (h1 ▸ hc)
  have hdecU : decodeUtf8 (str "AUTHINFO USER " ++ (s ++ 32 :: (t ++ str "\r\n")))
      = str "AUTHINFO USER " ++ (s ++ 32 :: (t ++ str "\r\n")) := by
    apply decodeUtf8_ascii
    intro b hb
    simp only [List.mem_append, List.mem_cons] at hb
    rcases hb with hb | hb | hb | hb | hb
    · exact (show ∀ x ∈ str "AUTHINFO USER ", x ≤ 127 from by decide) b hb
    · exact hsa b hb
    · omega
    · exact hta b hb
    · exact hcrlf b hb
  have hdecP : decodeUtf8 (str "AUTHINFO PASS " ++ (s ++ 32 :: (t ++ str "\r\n")))
      = str "AUTHINFO PASS " ++ (s ++ 32 :: (t ++ str "\r\n")) := by
    apply decodeUtf8_ascii
    intro b hb
    simp only [List.mem_append, List.mem_cons] at hb
    rcases hb with hb | hb | hb | hb | hb
    · exact (show ∀ x ∈ str "AUTHINFO PASS ", x ≤ 127 from by decide) b hb
    · exact hsa b hb
    · omega
    · exact hta b hb
    · exact hcrlf b hb
  have htrimU : jsTrim (str "AUTHINFO USER " ++ (s ++ 32 :: (t ++ str "\r\n")))
      = str "AUTHINFO USER " ++ (s ++ 32 :: t) := by
    rw [show str "AUTHINFO USER " ++ (s ++ 32 :: (t ++ str "\r\n"))
        = (str "AUTHINFO USER " ++ (s ++ 32 :: t)) ++ str "\r\n" from by
      simp [List.append_assoc]]
    exact jsTrim_line 65 (str "UTHINFO USER " ++ (s ++ 32 :: t)) _ rfl (by decide)
      (hlastT (str "AUTHINFO USER "))
  have htrimP : jsTrim (str "AUTHINFO PASS " ++ (s ++ 32 :: (t ++ str "\r\n")))
      = str "AUTHINFO PASS " ++ (s ++ 32 :: t) := by
    rw [show str "AUTHINFO PASS " ++ (s ++ 32 :: (t ++ str "\r\n"))
        = (str "AUTHINFO PASS " ++ (s ++ 32 :: t)) ++ str "\r\n" from by
      simp [List.append_assoc]]
    exact jsTrim_line 65 (str "UTHINFO PASS " ++ (s ++ 32 :: t)) _ rfl (by decide)
      (hlastT (str "AUTHINFO PASS "))
  have hargU : (jsSplitSpace (str "AUTHINFO USER " ++ (s ++ 32 :: t))).get? 2 = some s := by
    rw [show str "AUTHINFO USER " ++ (s ++ 32 :: t)
        = str "AUTHINFO" ++ 32 :: (str "USER" ++ 32 :: (s ++ 32 :: t)) from rfl]
    rw [jsSplitSpace_sep _ _ (by decide), jsSplitSpace_sep _ _ (by decide),
        jsSplitSpace_sep _ _ hss]
    rfl
  have hargP : (jsSplitSpace (str "AUTHINFO PASS " ++ (s ++ 32 :: t))).get? 2 = some s := by
    rw [show str "AUTHINFO PASS " ++ (s ++ 32 :: t)
        = str "AUTHINFO" ++ 32 :: (str "PASS" ++ 32 :: (s ++ 32 :: t)) from rfl]
    rw [jsSplitSpace_sep _ _ (by decide), jsSplitSpace_sep _ _ (by decide),
        jsSplitSpace_sep _ _ hss]
    rfl
  refine ⟨?_, ?_, ?_⟩
  · have hcmd := parseCommand_ext_user (s ++ 32 :: (t ++ str "\r\n"))
    simp only [requestTransform, hcmd, hdecU, htrimU, hargU, tmpl,
      show isAuthinfoCmd (some (str "AUTHINFO USER")) = true from by decide]
    simp
  · intro hvF
    have hcmd := parseCommand_ext_pass (s ++ 32 :: (t ++ str "\r\n"))
    simp only [requestTransform, hcmd, hdecP, htrimP, hargP, tmpl, hvF,
      show isAuthinfoCmd (some (str "AUTHINFO PASS")) = true from by decide]
    simp
    exact fun h => absurd h (by decide)
  · intro hvT
    have hcmd := parseCommand_ext_pass (s ++ 32 :: (t ++ str "\r\n"))
    simp only [requestTransform, hcmd, hdecP, htrimP, hargP, tmpl, hvT,
      show isAuthinfoCmd (some (str "AUTHINFO PASS")) = true from by decide]
    simp
    decide

/-- Witness for third_token_only: with a rejecting store, a password
containing a space is validated by its first token only and the original
line is forwarded. -/
theorem third_token_only_witness :
    requestTransform ⟨some (str "bob"), some (str "pw"), some (str "ht")⟩
      (fun _ _ => false) ⟨some (str "alice"), false⟩
      (str "AUTHINFO PASS " ++ (str "my" ++ 32 :: (str "secret" ++ str "\r\n")))
      = (⟨some (str "alice"), false⟩,
         str "AUTHINFO PASS " ++ (str "my" ++ 32 :: (str "secret" ++ str "\r\n"))) :=
  ((third_token_only (str "bob") (str "pw") (str "ht") (some (str "alice"))
      (fun _ _ => false) (str "my") (str "secret")
      (by decide) (by decide) (by decide) (by decide)
      (by
        intro b hb
        have h116 : (str "secret").getLast? = some 116 := by decide
        rw [h116] at hb
        have heq : (116 : Nat) = b := Option.some.injEq _ _ |>.mp hb
        rw [← heq]
        decide)).2.1) rfl

end NNTP
